import Mathlib

/-!
Verification of the rPySight event-stream sanitization and columnar batching
pipeline, embedded shallowly from the Python sources:

* `src/rpysight/ttbin_to_pysight_pickle.py` — the overflow sanitizer
  (`get_overflow_indices`, `even_overflows`, `less_end_overflows`,
  `more_end_overflows`, `_iter_over_start_end_pairs`) and its caller
  (`loop_over_ttbins`).
* `src/rpysight/call_timetagger.py` — the columnar encoder
  (`RealTimeRendering.convert_tags_to_recordbatch`), the transport
  (`init_stream_and_schema`, `process`) and the demultiplexer setup
  (`set_tt_for_demuxing`).

Event kinds are numbers fixed by the hardware protocol:
TimeTag=0, Error=1, OverflowBegin=2, OverflowEnd=3, MissedEvents=4.
Batches arrive as parallel arrays; here a column is a `List`.
-/

namespace RPySight

/-! ## Overflow sanitizer (ttbin_to_pysight_pickle.py) -/

/-- `np.where(event_type == v)[0]`: the indices of the entries equal to `v`,
in increasing order.  The auxiliary carries the index of the current head. -/
def indicesOfAux (v : Nat) : List Nat → Nat → List Nat
  | [], _ => []
  | x :: xs, i =>
    if x = v then i :: indicesOfAux v xs (i + 1) else indicesOfAux v xs (i + 1)

/-- Indices at which `et` holds the value `v`, in increasing order. -/
def indicesOf (v : Nat) (et : List Nat) : List Nat :=
  indicesOfAux v et 0

/-- `overflows[st:en] = True`: set every position in `[st, en)` to `true`.
Out-of-range and empty (`en ≤ st`) slices mark nothing, as in numpy. -/
def markRange : Nat → Nat → List Bool → List Bool
  | _, _, [] => []
  | st, en, b :: bs =>
    (if st = 0 ∧ 0 < en then true else b) :: markRange (st - 1) (en - 1) bs

/-- Fold a list of `(st, en)` slice assignments over a mask, left to right. -/
def applyPairs (pairs : List (Nat × Nat)) (m : List Bool) : List Bool :=
  pairs.foldl (fun acc p => markRange p.1 p.2 acc) m

/-- `_iter_over_start_end_pairs(starts, ends, overflows)`: for each positional
pair `(st, en)` of `zip(starts, ends)`, set `overflows[st:en] = True`. -/
def iterOverStartEndPairs (starts ends : List Nat) (m : List Bool) : List Bool :=
  applyPairs (starts.zip ends) m

/-- `even_overflows(starts, ends, length)`: the number of starts and ends is
identical; mark each paired `[st, en)` range on an all-`False` base. -/
def even_overflows (starts ends : List Nat) (length : Nat) : List Bool :=
  iterOverStartEndPairs starts ends (List.replicate length false)

/-- `less_end_overflows(starts, ends, length)`: one more start than end; the
trailing region `[starts[-1], length)` is additionally marked. -/
def less_end_overflows (starts ends : List Nat) (length : Nat) : List Bool :=
  markRange (starts.getLastD 0) length
    (iterOverStartEndPairs starts ends (List.replicate length false))

/-- `more_end_overflows(starts, ends, length)`: one more end than start; pairs
use `ends[1:]` and the leading region `[0, ends[0])` is additionally marked. -/
def more_end_overflows (starts ends : List Nat) (length : Nat) : List Bool :=
  markRange 0 (ends.headD 0)
    (iterOverStartEndPairs starts (ends.drop 1) (List.replicate length false))

/-- The three ways `get_overflow_indices` can come back to its caller:
with an overflow mask (`True` = inside an overflow region), with Python's
implicit `None` (the branches at lines 59-65 never `return` their mask), or
with an `AssertionError`. -/
inductive SanitizeResult where
  | mask (m : List Bool)
  | noneReturn
  | assertFail
deriving DecidableEq, Repr

/-- `get_overflow_indices(event_type)` from ttbin_to_pysight_pickle.py:

* no `OverflowBegin` (value 2) present → an all-`False` mask
  (`np.full_like(event_type, False)`), whatever the `OverflowEnd` count;
* equal begin/end counts → `even_overflows` mask is returned;
* counts differing by exactly one (with at least one begin) → the branch
  computes `less_end_overflows` / `more_end_overflows` but falls off the end
  of the function, returning `None`;
* counts differing by two or more (with at least one begin) → the `assert`
  fails. -/
def get_overflow_indices (event_type : List Nat) : SanitizeResult :=
  let starts := indicesOf 2 event_type
  let total_length := event_type.length
  if 0 < starts.length then
    let ends := indicesOf 3 event_type
    if ends.length = starts.length then
      .mask (even_overflows starts ends total_length)
    else if ends.length < starts.length then
      if ends.length + 1 = starts.length then .noneReturn else .assertFail
    else
      if ends.length = starts.length + 1 then .noneReturn else .assertFail
  else
    .mask (List.replicate total_length false)

/-- The validity mask as seen by the caller `loop_over_ttbins`, which keeps
rows via `timestamps[~overflow_indices]`: a row is valid iff the overflow mask
is `False` there.  `none` when the sanitizer produced no mask. -/
def validity_mask (event_type : List Nat) : Option (List Bool) :=
  match get_overflow_indices event_type with
  | .mask m => some (m.map (fun b => !b))
  | _ => none

/-- `timestamps[~overflow_indices]` in `loop_over_ttbins`: keep the rows whose
overflow flag is `False`.  When the sanitizer returned `None` (or raised), the
masking step fails and produces no filtered output. -/
def filter_by_validity (r : SanitizeResult) (xs : List Int) : Option (List Int) :=
  match r with
  | .mask m => some (((xs.zip m).filter (fun p => !p.2)).map (fun p => p.1))
  | _ => none

/-- The overflow mask of the balanced case, factored out: pairs of begin/end
indices marked on an all-`False` base (what `even_overflows` computes on the
index sets of the batch). -/
def evenMask (et : List Nat) : List Bool :=
  even_overflows (indicesOf 2 et) (indicesOf 3 et) et.length

/-! ## Columnar encoder and transport (call_timetagger.py) -/

/-- One entry of the structured array `incoming_tags` handed to
`RealTimeRendering.process` by the device layer: fields `type`,
`missed_events`, `channel`, `time`. -/
structure RawTag where
  type_ : Nat
  missed_events : Nat
  channel : Int
  time : Int
deriving DecidableEq, Repr

/-- The 4-column encoded batch (`type_: u8, missed_events: u16,
channel: i32, time: i64`) built by `convert_tags_to_recordbatch`. -/
structure OutgoingBatch where
  type_ : List Nat
  missed_events : List Nat
  channel : List Int
  time : List Int
deriving DecidableEq, Repr

/-- Storing an integer into a two's-complement cell of `2^w` values. -/
def wrapSigned (w : Nat) (x : Int) : Int :=
  (x + 2 ^ (w - 1)) % 2 ^ w - 2 ^ (w - 1)

/-- `RealTimeRendering.convert_tags_to_recordbatch(incoming_tags)`: each field
column of the structured array is placed, in order and unfiltered, into the
matching fixed-width arrow column (`uint8`, `uint16`, `int32`, `int64`);
every column has `num_tags = len(incoming_tags)` entries. -/
def convert_tags_to_recordbatch (incoming_tags : List RawTag) : OutgoingBatch where
  type_ := incoming_tags.map (fun t => t.type_ % 2 ^ 8)
  missed_events := incoming_tags.map (fun t => t.missed_events % 2 ^ 16)
  channel := incoming_tags.map (fun t => wrapSigned 32 t.channel)
  time := incoming_tags.map (fun t => wrapSigned 64 t.time)

/-- Reading an `OutgoingBatch` back column by column. -/
def decode_columns (b : OutgoingBatch) : List Nat × List Nat × List Int × List Int :=
  (b.type_, b.missed_events, b.channel, b.time)

/-- Modelled from the spec: the §4.3 `ColumnarBatchEncoder.encode` contract,
which additionally takes a validity mask and keeps only the valid positions
(in order) before building the columns.  Stated only to compare with the
source encoder `convert_tags_to_recordbatch`, which takes no mask. -/
def encode_spec (incoming_tags : List RawTag) (mask : List Bool) : OutgoingBatch :=
  convert_tags_to_recordbatch
    (((incoming_tags.zip mask).filter (fun p => p.2)).map (fun p => p.1))

/-- A message written to the byte sink: the one-time arrow schema
announcement, or one encoded record batch. -/
inductive Msg where
  | schema
  | data (b : OutgoingBatch)
deriving DecidableEq, Repr

/-- `init_stream_and_schema`: `pa.ipc.new_stream(sink, schema)` announces the
schema on the fresh sink, then `self.stream.write(test_batch)` writes the
empty handshake batch. -/
def init_stream_and_schema : List Msg :=
  [.schema, .data (convert_tags_to_recordbatch [])]

/-- `RealTimeRendering.process(incoming_tags, ...)`: the messages one call
writes — the encoded batch when `len(incoming_tags) > 0`, nothing otherwise. -/
def process (incoming_tags : List RawTag) : List Msg :=
  if 0 < incoming_tags.length then [.data (convert_tags_to_recordbatch incoming_tags)] else []

/-- The whole transport trace of one acquisition: construction runs
`init_stream_and_schema` once, then `process` once per delivered batch, in
arrival order. -/
def run_transport (batches : List (List RawTag)) : List Msg :=
  init_stream_and_schema ++ (batches.map process).flatten

/-- Recognize the schema-announcement message. -/
def isSchema : Msg → Bool
  | .schema => true
  | .data _ => false

/-! ## Demultiplexer setup (set_tt_for_demuxing) -/

/-- The delays, in ps, of the `DelayedChannel`s built by
`set_tt_for_demuxing`: first `delay_in_ps` (not 0), then
`delay_in_ps * period` for `period in range(1, num_demux_channels)`,
with `delay_in_ps = int(period_ps / num)`. -/
def delayed_channels (period_ps num : Nat) : List Nat :=
  let delay_in_ps := period_ps / num
  delay_in_ps :: (List.range' 1 (num - 1)).map (fun period => delay_in_ps * period)

/-- The `(gate_open_delay, gate_close_delay)` pairs of the `GatedChannel`s
built by `set_tt_for_demuxing`: adjacent pairs of `delayed_channels`, then a
final wrapping pair `(delayed_channels[-1], delayed_channels[0])`.  Gate `i`
admits events in `[open_delay, close_delay)` after a reference edge,
wrapping modulo the period. -/
def set_tt_for_demuxing (period_ps num : Nat) : List (Nat × Nat) :=
  let ds := delayed_channels period_ps num
  ds.zip (ds.drop 1) ++ [(ds.getLastD 0, ds.headD 0)]

/-- Modelled from the spec: §4.2 construction — `num` equal contiguous
slices, slice `i` covering `[i*slice_width, (i+1)*slice_width)` wrapping
modulo `period_ps`.  Stated only to compare with the source construction. -/
def demux_slices_spec (period_ps num : Nat) : List (Nat × Nat) :=
  let slice_width := period_ps / num
  (List.range num).map (fun i => (i * slice_width, ((i + 1) * slice_width) % period_ps))

/-! ## Lemmas about the index-set and mask-marking primitives -/

theorem indicesOfAux_nil_of_not_mem (v : Nat) (l : List Nat) (i : Nat) (h : v ∉ l) :
    indicesOfAux v l i = [] := by
  induction l generalizing i with
  | nil => rfl
  | cons x xs ih =>
    simp only [List.mem_cons, not_or] at h
    have hx : ¬ x = v := fun hxv => h.1 hxv.symm
    simp [indicesOfAux, hx, ih _ h.2]

theorem indicesOfAux_append (v : Nat) (a b : List Nat) (i : Nat) :
    indicesOfAux v (a ++ b) i = indicesOfAux v a i ++ indicesOfAux v b (i + a.length) := by
  induction a generalizing i with
  | nil => simp [indicesOfAux]
  | cons x xs ih =>
    have harith : i + 1 + xs.length = i + (xs.length + 1) := by omega
    by_cases h : x = v <;>
      simp [indicesOfAux, h, ih (i + 1), List.length_cons, harith]

theorem indicesOfAux_add (v : Nat) (l : List Nat) (i n : Nat) :
    indicesOfAux v l (i + n) = (indicesOfAux v l i).map (fun j => j + n) := by
  induction l generalizing i with
  | nil => rfl
  | cons x xs ih =>
    have harith : i + n + 1 = (i + 1) + n := by omega
    by_cases h : x = v <;>
      simp [indicesOfAux, h, harith, ih (i + 1)]

theorem mem_indicesOfAux_lt (v : Nat) (l : List Nat) (i j : Nat)
    (h : j ∈ indicesOfAux v l i) : j < i + l.length := by
  induction l generalizing i with
  | nil => simp [indicesOfAux] at h
  | cons x xs ih =>
    simp only [indicesOfAux] at h
    simp only [List.length_cons]
    by_cases hx : x = v
    · rw [if_pos hx] at h
      rcases List.mem_cons.mp h with h | h
      · omega
      · have := ih (i + 1) h; omega
    · rw [if_neg hx] at h
      have := ih (i + 1) h; omega

theorem indicesOf_append (v : Nat) (a b : List Nat) :
    indicesOf v (a ++ b) =
      indicesOf v a ++ (indicesOf v b).map (fun j => j + a.length) := by
  unfold indicesOf
  rw [indicesOfAux_append]
  congr 1
  have := indicesOfAux_add v b 0 a.length
  simpa using this

theorem mem_indicesOf_lt (v : Nat) (l : List Nat) (j : Nat)
    (h : j ∈ indicesOf v l) : j < l.length := by
  have := mem_indicesOfAux_lt v l 0 j h
  omega

theorem markRange_length (st en : Nat) (m : List Bool) :
    (markRange st en m).length = m.length := by
  induction m generalizing st en with
  | nil => rfl
  | cons b bs ih => simp [markRange, ih]

theorem markRange_en_zero (st : Nat) (m : List Bool) : markRange st 0 m = m := by
  induction m generalizing st with
  | nil => rfl
  | cons b bs ih => simp [markRange, ih]

theorem markRange_append (st en : Nat) (m₁ m₂ : List Bool) :
    markRange st en (m₁ ++ m₂) =
      markRange st en m₁ ++ markRange (st - m₁.length) (en - m₁.length) m₂ := by
  induction m₁ generalizing st en with
  | nil => simp [markRange]
  | cons b bs ih =>
    simp only [List.cons_append, markRange, List.length_cons]
    congr 1
    show markRange (st - 1) (en - 1) (bs ++ m₂) = _
    rw [ih]
    have h1 : st - 1 - bs.length = st - (bs.length + 1) := by omega
    have h2 : en - 1 - bs.length = en - (bs.length + 1) := by omega
    rw [h1, h2]

theorem markRange_of_length_le (st en : Nat) (m : List Bool) (h : m.length ≤ st) :
    markRange st en m = m := by
  induction m generalizing st en with
  | nil => rfl
  | cons b bs ih =>
    simp only [List.length_cons] at h
    have h0 : ¬ (st = 0 ∧ 0 < en) := by omega
    simp only [markRange, if_neg h0]
    rw [ih (st - 1) (en - 1) (by omega)]

theorem applyPairs_append_pairs (p₁ p₂ : List (Nat × Nat)) (m : List Bool) :
    applyPairs (p₁ ++ p₂) m = applyPairs p₂ (applyPairs p₁ m) := by
  unfold applyPairs
  exact List.foldl_append _ _ _ _

theorem applyPairs_length (pairs : List (Nat × Nat)) (m : List Bool) :
    (applyPairs pairs m).length = m.length := by
  induction pairs generalizing m with
  | nil => rfl
  | cons p ps ih =>
    unfold applyPairs at ih ⊢
    simp only [List.foldl_cons]
    rw [ih, markRange_length]

theorem applyPairs_append_right (pairs : List (Nat × Nat)) (m₁ m₂ : List Bool)
    (h : ∀ p ∈ pairs, p.2 ≤ m₁.length) :
    applyPairs pairs (m₁ ++ m₂) = applyPairs pairs m₁ ++ m₂ := by
  induction pairs generalizing m₁ with
  | nil => rfl
  | cons p ps ih =>
    unfold applyPairs
    simp only [List.foldl_cons]
    have hp : p.2 ≤ m₁.length := h p (List.mem_cons_self _ _)
    have hrw : markRange p.1 p.2 (m₁ ++ m₂) = markRange p.1 p.2 m₁ ++ m₂ := by
      rw [markRange_append]
      have : p.2 - m₁.length = 0 := by omega
      rw [this, markRange_en_zero]
    rw [hrw]
    have := ih (markRange p.1 p.2 m₁)
      (fun q hq => by rw [markRange_length]; exact h q (List.mem_cons_of_mem _ hq))
    exact this

theorem applyPairs_shift (pairs : List (Nat × Nat)) (L : Nat) (m₁ m₂ : List Bool)
    (hL : m₁.length = L) :
    applyPairs (pairs.map (fun p => (p.1 + L, p.2 + L))) (m₁ ++ m₂) =
      m₁ ++ applyPairs pairs m₂ := by
  subst hL
  induction pairs generalizing m₂ with
  | nil => rfl
  | cons p ps ih =>
    unfold applyPairs
    simp only [List.map_cons, List.foldl_cons]
    have hrw : markRange (p.1 + m₁.length) (p.2 + m₁.length) (m₁ ++ m₂) =
        m₁ ++ markRange p.1 p.2 m₂ := by
      have e1 : p.1 + m₁.length - m₁.length = p.1 := by omega
      have e2 : p.2 + m₁.length - m₁.length = p.2 := by omega
      rw [markRange_append,
        markRange_of_length_le (p.1 + m₁.length) (p.2 + m₁.length) m₁ (by omega), e1, e2]
    rw [hrw]
    exact ih (markRange p.1 p.2 m₂)

/-! ## The balanced (equal begin/end counts) case of the sanitizer -/

theorem evenMask_length (et : List Nat) : (evenMask et).length = et.length := by
  unfold evenMask even_overflows iterOverStartEndPairs
  rw [applyPairs_length, List.length_replicate]

theorem get_overflow_indices_balanced (et : List Nat)
    (h : (indicesOf 3 et).length = (indicesOf 2 et).length) :
    get_overflow_indices et = .mask (evenMask et) := by
  by_cases hpos : 0 < (indicesOf 2 et).length
  · simp only [get_overflow_indices, if_pos hpos, if_pos h]
    rfl
  · have hnil : indicesOf 2 et = [] := List.length_eq_zero.mp (by omega)
    simp only [get_overflow_indices, if_neg hpos]
    unfold evenMask even_overflows iterOverStartEndPairs
    rw [hnil]
    rfl

theorem evenMask_append (a b : List Nat)
    (ha : (indicesOf 2 a).length = (indicesOf 3 a).length) :
    evenMask (a ++ b) = evenMask a ++ evenMask b := by
  unfold evenMask even_overflows iterOverStartEndPairs
  rw [indicesOf_append 2, indicesOf_append 3, List.zip_append ha,
    applyPairs_append_pairs, List.length_append, List.replicate_add]
  have hinner :
      applyPairs ((indicesOf 2 a).zip (indicesOf 3 a))
          (List.replicate a.length false ++ List.replicate b.length false) =
        applyPairs ((indicesOf 2 a).zip (indicesOf 3 a)) (List.replicate a.length false) ++
          List.replicate b.length false := by
    apply applyPairs_append_right
    intro p hp
    rw [List.length_replicate]
    exact le_of_lt (mem_indicesOf_lt 3 a p.2 (List.of_mem_zip hp).2)
  rw [hinner]
  have hzipmap : ((indicesOf 2 b).map (fun j => j + a.length)).zip
      ((indicesOf 3 b).map (fun j => j + a.length)) =
      ((indicesOf 2 b).zip (indicesOf 3 b)).map
        (fun p => (p.1 + a.length, p.2 + a.length)) := by
    rw [List.zip_map]
    exact List.map_congr_left (fun p _ => by cases p; rfl)
  rw [hzipmap]
  exact applyPairs_shift _ a.length _ _
    (by rw [applyPairs_length, List.length_replicate])

/-- The two count patterns that make `get_overflow_indices` fall off the end
of the function (Python returns `None`): at least one begin, and exactly one
more begin than end or exactly one more end than begin. -/
theorem get_overflow_indices_offbyone (et : List Nat)
    (hpos : 0 < (indicesOf 2 et).length)
    (hdiff : (indicesOf 3 et).length + 1 = (indicesOf 2 et).length ∨
      (indicesOf 3 et).length = (indicesOf 2 et).length + 1) :
    get_overflow_indices et = .noneReturn := by
  simp only [get_overflow_indices, if_pos hpos]
  rcases hdiff with h | h
  · rw [if_neg (by omega), if_pos (by omega), if_pos h]
  · rw [if_neg (by omega), if_neg (by omega), if_pos h]

/-! ## Claim theorems -/

/-- C1 (counterexample): on the batch `kind = [OverflowBegin, TimeTag,
TimeTag, OverflowEnd]` the sanitizer's validity mask is
`[false, false, false, true]`, not the claimed `[false, false, false, false]`:
the `OverflowEnd` marker row at index 3 stays valid because the marked
region `[begin, end)` is half-open and excludes the end marker itself. -/
theorem C1_counterexample :
    validity_mask [2, 0, 0, 3] = some [false, false, false, true] ∧
      validity_mask [2, 0, 0, 3] ≠ some [false, false, false, false] := by
  decide

/-- C1 (amended): on the batch `kind = [OverflowBegin, TimeTag, TimeTag,
OverflowEnd]` the sanitizer marks the half-open range `[0, 3)` as overflow,
so the validity mask is `[false, false, false, true]` — the `OverflowEnd`
marker row remains valid.  The sanitizer keeps no state between calls, so
nothing is open on exit. -/
theorem C1_mask_half_open :
    get_overflow_indices [2, 0, 0, 3] = .mask [true, true, true, false] ∧
      validity_mask [2, 0, 0, 3] = some [false, false, false, true] := by
  decide

/-- C2 (counterexample): a batch consisting of a single `Error`-kind row
(kind 1) and no overflow markers gets validity mask `[true]`: the code never
excludes `Error` rows, contradicting the claimed mask `kind != Error`. -/
theorem C2_counterexample :
    validity_mask [1] = some [true] ∧ validity_mask [1] ≠ some [false] := by
  decide

/-- C2 (amended): for every batch whose kind column contains no
`OverflowBegin` (2) and no `OverflowEnd` (3), the validity mask is all-`true`
— every row is kept, `Error`-kind rows included. -/
theorem C2_no_marker_all_valid (et : List Nat) (h2 : 2 ∉ et) (_h3 : 3 ∉ et) :
    validity_mask et = some (List.replicate et.length true) := by
  have hs : indicesOf 2 et = [] := indicesOfAux_nil_of_not_mem 2 et 0 h2
  have hmask : get_overflow_indices et = .mask (List.replicate et.length false) := by
    simp only [get_overflow_indices, hs]
    rfl
  unfold validity_mask
  rw [hmask]
  simp [List.map_replicate]

/-- C2 witness: the amended statement evaluated on the concrete batch
`kind = [0, 1, 4]`. -/
theorem C2_no_marker_all_valid_witness :
    validity_mask [0, 1, 4] = some [true, true, true] := by
  have h := C2_no_marker_all_valid [0, 1, 4] (by decide) (by decide)
  simpa using h

/-- C3 (counterexample): splitting the batch `kind = [2, 0, 3]` after index 1
breaks the claim: the whole batch sanitizes to the mask `[true, true, false]`,
but the first sub-batch `[2, 0]` makes `get_overflow_indices` return `None`
(and the sanitizer carries no state into the second call), so the two calls
in sequence produce no concatenated mask at all. -/
theorem C3_counterexample :
    get_overflow_indices ([2, 0] ++ [3]) = .mask [true, true, false] ∧
      get_overflow_indices [2, 0] = .noneReturn ∧
      validity_mask [2, 0] = none := by
  decide

/-- C3 (amended): when each of the two consecutive sub-batches contains
equally many `OverflowBegin` and `OverflowEnd` markers (no overflow region
straddles the split), sanitizing the sub-batches separately succeeds and the
concatenation of their masks equals the mask of the whole batch.  The
sanitizer is stateless, so there is no carried state to compare. -/
theorem C3_split_balanced (a b : List Nat)
    (ha : (indicesOf 2 a).length = (indicesOf 3 a).length)
    (hb : (indicesOf 2 b).length = (indicesOf 3 b).length) :
    get_overflow_indices a = .mask (evenMask a) ∧
      get_overflow_indices b = .mask (evenMask b) ∧
      get_overflow_indices (a ++ b) = .mask (evenMask a ++ evenMask b) := by
  have h1 := get_overflow_indices_balanced a ha.symm
  have h2 := get_overflow_indices_balanced b hb.symm
  have hwhole : (indicesOf 3 (a ++ b)).length = (indicesOf 2 (a ++ b)).length := by
    rw [indicesOf_append, indicesOf_append]
    simp only [List.length_append, List.length_map]
    omega
  have h3 := get_overflow_indices_balanced (a ++ b) hwhole
  rw [evenMask_append a b ha] at h3
  exact ⟨h1, h2, h3⟩

/-- C3 witness: the amended statement evaluated on the concrete sub-batches
`kind = [2, 3, 0]` and `kind = [0, 2, 3]`. -/
theorem C3_split_balanced_witness :
    ((indicesOf 2 [2, 3, 0]).length = (indicesOf 3 [2, 3, 0]).length ∧
        (indicesOf 2 [0, 2, 3]).length = (indicesOf 3 [0, 2, 3]).length) ∧
      (get_overflow_indices [2, 3, 0] = .mask (evenMask [2, 3, 0]) ∧
        get_overflow_indices [0, 2, 3] = .mask (evenMask [0, 2, 3]) ∧
        get_overflow_indices ([2, 3, 0] ++ [0, 2, 3]) =
          .mask (evenMask [2, 3, 0] ++ evenMask [0, 2, 3])) :=
  ⟨⟨by decide, by decide⟩,
    C3_split_balanced [2, 3, 0] [0, 2, 3] (by decide) (by decide)⟩

/-- C4 (counterexample): the batch `kind = [3, 3]` has zero `OverflowBegin`
and two `OverflowEnd` markers — a count pattern outside every tolerated one —
yet the sanitizer signals nothing: it silently returns the all-`false`
overflow mask (every row valid). -/
theorem C4_counterexample :
    get_overflow_indices [3, 3] = .mask [false, false] ∧
      get_overflow_indices [3, 3] ≠ .assertFail ∧
      get_overflow_indices [3, 3] ≠ .noneReturn := by
  decide

/-- C4 (amended): the sanitizer signals an error (a failed `assert`) exactly
when the batch contains at least one `OverflowBegin` and the begin/end counts
differ by two or more.  With no `OverflowBegin` present, any number of
`OverflowEnd` markers is silently accepted, and a count difference of one is
accepted (returning `None`) regardless of any carried state, which does not
exist. -/
theorem C4_assert_iff (et : List Nat) :
    get_overflow_indices et = .assertFail ↔
      0 < (indicesOf 2 et).length ∧
        ((indicesOf 3 et).length + 2 ≤ (indicesOf 2 et).length ∨
          (indicesOf 2 et).length + 2 ≤ (indicesOf 3 et).length) := by
  simp only [get_overflow_indices]
  by_cases hpos : 0 < (indicesOf 2 et).length
  · rw [if_pos hpos]
    by_cases he : (indicesOf 3 et).length = (indicesOf 2 et).length
    · rw [if_pos he]; simp; omega
    · rw [if_neg he]
      by_cases hlt : (indicesOf 3 et).length < (indicesOf 2 et).length
      · rw [if_pos hlt]
        by_cases h1 : (indicesOf 3 et).length + 1 = (indicesOf 2 et).length
        · rw [if_pos h1]; simp; omega
        · rw [if_neg h1]; simp; omega
      · rw [if_neg hlt]
        by_cases h1 : (indicesOf 3 et).length = (indicesOf 2 et).length + 1
        · rw [if_pos h1]; simp; omega
        · rw [if_neg h1]; simp; omega
  · rw [if_neg hpos]; simp; omega

/-- C10 (counterexample): the batch `kind = [3]` has overflow counts that
differ by exactly one (one end, zero begins), yet the sanitizer does not
return `None`: because no `OverflowBegin` is present it returns the
all-`false` mask. -/
theorem C10_counterexample :
    get_overflow_indices [3] = .mask [false] ∧
      get_overflow_indices [3] ≠ .noneReturn := by
  decide

/-- C10 (amended): when the batch contains at least one `OverflowBegin` and
the begin/end counts differ by exactly one (in either direction), the
sanitizer falls off the end of the function and returns `None`, so the
caller's attempt in `loop_over_ttbins` to invert and apply the mask to the
timestamp and channel arrays fails rather than producing filtered output. -/
theorem C10_offbyone_returns_none (et : List Nat) (ts : List Int)
    (hpos : 0 < (indicesOf 2 et).length)
    (hdiff : (indicesOf 3 et).length + 1 = (indicesOf 2 et).length ∨
      (indicesOf 3 et).length = (indicesOf 2 et).length + 1) :
    get_overflow_indices et = .noneReturn ∧
      filter_by_validity (get_overflow_indices et) ts = none := by
  have h := get_overflow_indices_offbyone et hpos hdiff
  exact ⟨h, by rw [h]; rfl⟩

/-- C10 witness: the amended statement evaluated on the concrete batch
`kind = [2, 0]` with timestamps `[10, 20]`. -/
theorem C10_offbyone_returns_none_witness :
    get_overflow_indices [2, 0] = .noneReturn ∧
      filter_by_validity (get_overflow_indices [2, 0]) [10, 20] = none :=
  C10_offbyone_returns_none [2, 0] [10, 20] (by decide) (Or.inl (by decide))

/-! ## Encoder, transport and demultiplexer claims -/

theorem wrapSigned_eq_self (w : Nat) (x : Int) (hw : 1 ≤ w)
    (h1 : -(2 ^ (w - 1)) ≤ x) (h2 : x < 2 ^ (w - 1)) :
    wrapSigned w x = x := by
  unfold wrapSigned
  have hsplit : (2 : Int) ^ w = 2 ^ (w - 1) * 2 := by
    rw [← pow_succ]
    congr 1
    omega
  rw [hsplit]
  have hpos : (0 : Int) < 2 ^ (w - 1) := by positivity
  have hm : (x + 2 ^ (w - 1)) % (2 ^ (w - 1) * 2) = x + 2 ^ (w - 1) :=
    Int.emod_eq_of_lt (by omega) (by omega)
  omega

/-- C5: for a batch whose kind values are among the five legal ones (and whose
other columns are in their declared fixed-width ranges), encoding to an
`OutgoingBatch` and reading it back column by column reproduces the four
input columns exactly — the narrowing of kind to the `uint8` wire type loses
no information for the values 0..4. -/
theorem C5_roundtrip (tags : List RawTag)
    (hk : ∀ t ∈ tags, t.type_ < 5)
    (hm : ∀ t ∈ tags, t.missed_events < 2 ^ 16)
    (hc : ∀ t ∈ tags, -(2 ^ 31) ≤ t.channel ∧ t.channel < 2 ^ 31)
    (ht : ∀ t ∈ tags, -(2 ^ 63) ≤ t.time ∧ t.time < 2 ^ 63) :
    decode_columns (convert_tags_to_recordbatch tags) =
      (tags.map (fun t => t.type_), tags.map (fun t => t.missed_events),
        tags.map (fun t => t.channel), tags.map (fun t => t.time)) := by
  have e1 : tags.map (fun t => t.type_ % 2 ^ 8) = tags.map (fun t => t.type_) :=
    List.map_congr_left fun t htm =>
      Nat.mod_eq_of_lt (lt_trans (hk t htm) (by norm_num))
  have e2 : tags.map (fun t => t.missed_events % 2 ^ 16) =
      tags.map (fun t => t.missed_events) :=
    List.map_congr_left fun t htm => Nat.mod_eq_of_lt (hm t htm)
  have e3 : tags.map (fun t => wrapSigned 32 t.channel) =
      tags.map (fun t => t.channel) :=
    List.map_congr_left fun t htm =>
      wrapSigned_eq_self 32 t.channel (by norm_num) (hc t htm).1 (hc t htm).2
  have e4 : tags.map (fun t => wrapSigned 64 t.time) =
      tags.map (fun t => t.time) :=
    List.map_congr_left fun t htm =>
      wrapSigned_eq_self 64 t.time (by norm_num) (ht t htm).1 (ht t htm).2
  unfold decode_columns convert_tags_to_recordbatch
  rw [e1, e2, e3, e4]

/-- C5 witness: the round trip evaluated on a concrete two-row batch hitting
the extreme legal kind values 0 and 4. -/
theorem C5_roundtrip_witness :
    decode_columns (convert_tags_to_recordbatch
        [⟨0, 1, 2, 3⟩, ⟨4, 65535, -5, 100⟩]) =
      ([0, 4], [1, 65535], [2, -5], [3, 100]) := by
  have h := C5_roundtrip [⟨0, 1, 2, 3⟩, ⟨4, 65535, -5, 100⟩]
    (by decide) (by decide) (by decide) (by decide)
  simpa using h

/-- C6 (counterexample): the source encoder takes no validity mask and
filters nothing: on a one-row batch it produces columns of length 1, whereas
an encoder honouring the mask `[false]` (the spec contract, `encode_spec`)
would produce empty columns with length equal to the popcount 0. -/
theorem C6_counterexample :
    (convert_tags_to_recordbatch [⟨0, 0, 1, 10⟩]).type_.length = 1 ∧
      (encode_spec [⟨0, 0, 1, 10⟩] [false]).type_.length = 0 ∧
      convert_tags_to_recordbatch [⟨0, 0, 1, 10⟩] ≠
        encode_spec [⟨0, 0, 1, 10⟩] [false] := by
  decide

/-- C6 (amended): the source encoder applies no validity mask — it behaves
exactly as the spec encoder does on an all-`true` mask, keeping every row in
its original order — and its four output columns always have identical
length equal to the input length. -/
theorem C6_unmasked_encoder (tags : List RawTag) :
    convert_tags_to_recordbatch tags =
        encode_spec tags (List.replicate tags.length true) ∧
      (convert_tags_to_recordbatch tags).type_.length = tags.length ∧
      (convert_tags_to_recordbatch tags).missed_events.length = tags.length ∧
      (convert_tags_to_recordbatch tags).channel.length = tags.length ∧
      (convert_tags_to_recordbatch tags).time.length = tags.length := by
  have hfz : (((tags.zip (List.replicate tags.length true)).filter
      (fun p => p.2)).map (fun p => p.1)) = tags := by
    induction tags with
    | nil => rfl
    | cons t ts ih =>
      simp only [List.length_cons, List.replicate_succ, List.zip_cons_cons,
        List.filter_cons]
      simpa using ih
  refine ⟨?_, ?_, ?_, ?_, ?_⟩
  · unfold encode_spec
    rw [hfz]
  all_goals
    unfold convert_tags_to_recordbatch
    simp [List.length_map]

/-- C7: over every run of the transport — construction, then one `process`
call per delivered batch — exactly one schema-announcement message is
written, and it is the very first message on the sink, before any data
batch. -/
theorem C7_schema_once_first (batches : List (List RawTag)) :
    (run_transport batches).head? = some Msg.schema ∧
      (run_transport batches).countP isSchema = 1 := by
  constructor
  · rfl
  · unfold run_transport
    rw [List.countP_append]
    have hflat : ((batches.map process).flatten).countP isSchema = 0 := by
      induction batches with
      | nil => rfl
      | cons b bs ih =>
        have hb : (process b).countP isSchema = 0 := by
          unfold process
          split <;> rfl
        simp only [List.map_cons, List.flatten_cons, List.countP_append, hb, ih]
    rw [hflat]
    rfl

/-- C8 (counterexample): a delivered batch with zero events is skipped, not
written: `process` writes nothing for it, so the transport trace of the run
on one empty batch is just the construction handshake. -/
theorem C8_counterexample :
    process ([] : List RawTag) = ([] : List Msg) ∧
      run_transport [[]] = init_stream_and_schema := by
  constructor <;> rfl

/-- C8 (amended): the data messages of a run are exactly the encodings of
the non-empty delivered batches, in arrival order; batches with zero events
are skipped (never written). -/
theorem C8_empty_batches_skipped (batches : List (List RawTag)) :
    (batches.map process).flatten =
      (batches.filter (fun b => 0 < b.length)).map
        (fun b => Msg.data (convert_tags_to_recordbatch b)) := by
  induction batches with
  | nil => rfl
  | cons b bs ih =>
    simp only [List.map_cons, List.flatten_cons, List.filter_cons]
    by_cases h : 0 < b.length
    · simp [process, h, ih]
    · simp [process, h, ih]

/-- C9: evaluated at the reference period 1000 ps with 4 requested channels,
the construction yields the gate intervals
`[(250, 250), (250, 500), (500, 750), (750, 250)]`: the first logical
channel gets the empty interval `[250, 250)` and the last one spans 500 ps,
so the slices are not the equal partition
`[(0, 250), (250, 500), (500, 750), (750, 0)]` required by the claim. -/
theorem C9_demux_not_partition :
    set_tt_for_demuxing 1000 4 = [(250, 250), (250, 500), (500, 750), (750, 250)] ∧
      demux_slices_spec 1000 4 = [(0, 250), (250, 500), (500, 750), (750, 0)] ∧
      set_tt_for_demuxing 1000 4 ≠ demux_slices_spec 1000 4 := by
  decide

end RPySight
